import Mathlib

/-!
Verification of the satpy spectral-blending compositors
(`satpy/composites/spectral.py`) and of the ATMS level-1b reader adapter
(specified through `satpy/tests/reader_tests/test_atms_l1b_nc.py`).

Array code is embedded element-wise: a channel array is a function from an
abstract pixel-index type `I` to floating-point values.  Floating-point
values are modelled exactly by the type `FP`: a NaN, two infinities, or a
finite rational (rounding is not modelled; NaN propagation, division by
zero and NaN comparison semantics follow IEEE-754, with an unsigned zero).
-/

/-- Floating-point value: NaN, +inf, -inf, or a finite rational. -/
inductive FP where
  | nan : FP
  | pinf : FP
  | ninf : FP
  | fin : ℚ → FP
deriving DecidableEq

/-- IEEE-754 addition on `FP` (exact on finite values). -/
def fpAdd : FP → FP → FP
  | .nan, _ => .nan
  | _, .nan => .nan
  | .pinf, .ninf => .nan
  | .ninf, .pinf => .nan
  | .pinf, _ => .pinf
  | _, .pinf => .pinf
  | .ninf, _ => .ninf
  | _, .ninf => .ninf
  | .fin a, .fin b => .fin (a + b)

/-- IEEE-754 subtraction on `FP` (exact on finite values). -/
def fpSub : FP → FP → FP
  | .nan, _ => .nan
  | _, .nan => .nan
  | .pinf, .pinf => .nan
  | .ninf, .ninf => .nan
  | .pinf, _ => .pinf
  | _, .pinf => .ninf
  | .ninf, _ => .ninf
  | _, .ninf => .pinf
  | .fin a, .fin b => .fin (a - b)

/-- IEEE-754 multiplication on `FP` (exact on finite values). -/
def fpMul : FP → FP → FP
  | .nan, _ => .nan
  | _, .nan => .nan
  | .pinf, .pinf => .pinf
  | .pinf, .ninf => .ninf
  | .ninf, .pinf => .ninf
  | .ninf, .ninf => .pinf
  | .pinf, .fin b => if b = 0 then .nan else if 0 < b then .pinf else .ninf
  | .fin a, .pinf => if a = 0 then .nan else if 0 < a then .pinf else .ninf
  | .ninf, .fin b => if b = 0 then .nan else if 0 < b then .ninf else .pinf
  | .fin a, .ninf => if a = 0 then .nan else if 0 < a then .ninf else .pinf
  | .fin a, .fin b => .fin (a * b)

/-- IEEE-754 division on `FP` with an unsigned zero: `0/0 = NaN`,
`a/0 = ±inf` for finite nonzero `a`, `inf/inf = NaN`. -/
def fpDiv : FP → FP → FP
  | .nan, _ => .nan
  | _, .nan => .nan
  | .pinf, .pinf => .nan
  | .pinf, .ninf => .nan
  | .ninf, .pinf => .nan
  | .ninf, .ninf => .nan
  | .pinf, .fin b => if 0 ≤ b then .pinf else .ninf
  | .ninf, .fin b => if 0 ≤ b then .ninf else .pinf
  | .fin _, .pinf => .fin 0
  | .fin _, .ninf => .fin 0
  | .fin a, .fin b =>
      if b = 0 then (if a = 0 then .nan else if 0 < a then .pinf else .ninf)
      else .fin (a / b)

/-- IEEE-754 strict less-than on `FP`: any comparison with NaN is false. -/
def fpLt : FP → FP → Bool
  | .nan, _ => false
  | _, .nan => false
  | .ninf, .ninf => false
  | .ninf, _ => true
  | _, .ninf => false
  | .pinf, _ => false
  | .fin _, .pinf => true
  | .fin a, .fin b => decide (a < b)

/-- `SpectralBlender.__call__`: checks that `fractions` and `projectables`
have the same length (else a `ValueError`), then returns the element-wise
weighted sum `sum(fraction * value for fraction, value in zip(...))`,
with Python's `sum` starting from `0`.  Alignment (`match_data_arrays`)
and metadata merging act on coordinates/attributes only and are identities
on the data values modelled here. -/
def spectralBlender_call {I : Type} (fractions : List (I → FP)) (projectables : List (I → FP)) :
    Except String (I → FP) :=
  if fractions.length ≠ projectables.length then
    .error "fractions and projectables must have the same length."
  else
    .ok fun i => ((fractions.zip projectables).map fun fv => fpMul (fv.1 i) (fv.2 i)).foldl
      fpAdd (.fin 0)

/-- `HybridGreen.__init__`: `fractions = (1 - fraction, fraction)`. -/
def hybridGreen_fractions (fraction : ℚ) : ℚ × ℚ := (1 - fraction, fraction)

/-- `HybridGreen` applied to two channels: the scalar fraction pair is
broadcast to constant arrays and passed to `SpectralBlender.__call__`. -/
def hybridGreen_call {I : Type} (fraction : ℚ) (green nir : I → FP) : Except String (I → FP) :=
  spectralBlender_call
    [fun _ => .fin (hybridGreen_fractions fraction).1, fun _ => .fin (hybridGreen_fractions fraction).2]
    [green, nir]

/-- Parameters of `NDVIHybridGreen.__init__`. -/
structure NDVIParams where
  ndvi_min : ℚ
  ndvi_max : ℚ
  limits : ℚ × ℚ

/-- The default parameters: `ndvi_min=0.0`, `ndvi_max=1.0`, `limits=(0.15, 0.05)`. -/
def defaultNDVIParams : NDVIParams := ⟨0, 1, (3/20, 1/20)⟩

/-- `ndvi = (ndvi_input[1] - ndvi_input[0]) / (ndvi_input[1] + ndvi_input[0])`
at one pixel, with `ndvi_input = [vis, nir]`. -/
def ndvi_raw (vis nir : FP) : FP := fpDiv (fpSub nir vis) (fpAdd nir vis)

/-- The two one-sided where-replacements of `NDVIHybridGreen.__call__`:
`ndvi = where(ndvi > ndvi_min, ndvi, ndvi_min)` then
`ndvi = where(ndvi < ndvi_max, ndvi, ndvi_max)`; the IEEE comparison
`ndvi > ndvi_min` is `fpLt ndvi_min ndvi`. -/
def ndvi_clamped (p : NDVIParams) (vis nir : FP) : FP :=
  let n0 := ndvi_raw vis nir
  let n1 := if fpLt (.fin p.ndvi_min) n0 then n0 else .fin p.ndvi_min
  if fpLt n1 (.fin p.ndvi_max) then n1 else .fin p.ndvi_max

/-- `fraction = (ndvi - ndvi_min) / (ndvi_max - ndvi_min) * (limits[1] - limits[0]) + limits[0]`
at one pixel (on the clamped NDVI). -/
def ndvi_fraction (p : NDVIParams) (vis nir : FP) : FP :=
  fpAdd
    (fpMul
      (fpDiv (fpSub (ndvi_clamped p vis nir) (.fin p.ndvi_min))
        (fpSub (.fin p.ndvi_max) (.fin p.ndvi_min)))
      (fpSub (.fin p.limits.2) (.fin p.limits.1)))
    (.fin p.limits.1)

/-- An `NDVIHybridGreen` compositor instance: its parameters plus the
mutable `self.fractions` attribute inherited from `SpectralBlender`. -/
structure NDVIHybridGreen (I : Type) where
  params : NDVIParams
  fractions : List (I → FP)

/-- `NDVIHybridGreen.__call__` on `projectables = [green, vis, nir]`:
computes the per-pixel fraction, overwrites `self.fractions` with
`(1 - fraction, fraction)`, and delegates to `SpectralBlender.__call__`
on `[green, nir]`.  Returns the updated instance and the result. -/
def NDVIHybridGreen.call {I : Type} (s : NDVIHybridGreen I) (green vis nir : I → FP) :
    NDVIHybridGreen I × Except String (I → FP) :=
  let fraction : I → FP := fun i => ndvi_fraction s.params (vis i) (nir i)
  let s2 : NDVIHybridGreen I :=
    { s with fractions := [fun i => fpSub (.fin 1) (fraction i), fraction] }
  (s2, spectralBlender_call s2.fractions [green, nir])

/-- A freshly constructed instance (`SpectralBlender.__init__` defaults
`fractions` to the empty tuple). -/
def mkNDVIHybridGreen {I : Type} (p : NDVIParams) : NDVIHybridGreen I := ⟨p, []⟩

/-- The output of one `NDVIHybridGreen.__call__` on a fresh instance. -/
def ndviHybridGreen_call {I : Type} (p : NDVIParams) (green vis nir : I → FP) :
    Except String (I → FP) :=
  ((mkNDVIHybridGreen p).call green vis nir).2

/-- The per-pixel blend fraction worded as the spec words it: NDVI is
clamped into `[ndvi_min, ndvi_max]`, then mapped linearly onto the limits.
Used to compare the code's where-based computation against the spec. -/
def specNdviFraction (p : NDVIParams) (v n : ℚ) : ℚ :=
  let clamped := min p.ndvi_max (max p.ndvi_min ((n - v) / (n + v)))
  (clamped - p.ndvi_min) / (p.ndvi_max - p.ndvi_min) * (p.limits.2 - p.limits.1) + p.limits.1

/-- A 2-D labeled array: a pair of dimension names plus data indexed by
the two dimensions in order. -/
structure DimArray where
  dims : String × String
  data : Nat → Nat → ℚ

/-- Modelled from the spec: dimension renaming of the ATMS level-1b reader
(the reader module itself is outside the excerpt; only its tests are).
Along-track (`atrack`) is canonicalized to `y`, cross-track (`xtrack`)
to `x`. -/
def renameDim (d : String) : String :=
  if d = "atrack" then "y" else if d = "xtrack" then "x" else d

/-- Modelled from the spec: `_standardize_dims` renames `atrack`/`xtrack`
to `y`/`x` and, when the renamed dimensions are in `(x, y)` order,
transposes the array to the canonical `(y, x)` order. -/
def standardize_dims (a : DimArray) : DimArray :=
  let d1 := renameDim a.dims.1
  let d2 := renameDim a.dims.2
  if d1 = "x" ∧ d2 = "y" then ⟨("y", "x"), fun y x => a.data x y⟩ else ⟨(d1, d2), a.data⟩

/-- Digit value of a character, `none` for non-digit characters. -/
def charDigit? (c : Char) : Option Nat :=
  if c.isDigit then some (c.toNat - '0'.toNat) else none

/-- Accumulating decimal parse of a character list; fails on non-digits. -/
def parseNatAux (acc : Nat) : List Char → Option Nat
  | [] => some acc
  | c :: cs =>
    match charDigit? c with
    | some d => parseNatAux (acc * 10 + d) cs
    | none => none

/-- Modelled from the spec: parse a numeric channel-name string (the
channel names are the numeric strings "1".."22"); non-numeric names and
the empty name parse to `none`. -/
def parseChannelNumber (s : String) : Option Nat :=
  match s.data with
  | [] => none
  | c :: cs => parseNatAux 0 (c :: cs)

/-- Modelled from the spec: the reader's backing dataset — the 3-D
antenna-temperature cube indexed `(atrack, xtrack, channel)` plus the
named 2-D variables (geolocation fields and the like). -/
structure AtmsDataset where
  cube : Nat → Nat → Nat → ℚ
  dataVars : List (String × DimArray)

/-- Modelled from the spec: map a channel name "1".."22" to its 0-based
cube index (1-based external naming, 0-based internal indexing). -/
def channelIndex (s : String) : Option Nat :=
  match parseChannelNumber s with
  | some k => if 1 ≤ k ∧ k ≤ 22 then some (k - 1) else none
  | none => none

/-- Modelled from the spec: `_get_channel_data` returns the 2-D slice
`cube[:, :, index]` of the antenna-temperature cube for a valid channel
name, `none` otherwise. -/
def get_channel_data (ds : AtmsDataset) (name : String) : Option (Nat → Nat → ℚ) :=
  match channelIndex name with
  | some idx => some fun a x => ds.cube a x idx
  | none => none

/-- Association-list lookup of a named 2-D variable. -/
def lookupVar : List (String × DimArray) → String → Option DimArray
  | [], _ => none
  | (k, v) :: rest, n => if n = k then some v else lookupVar rest n

/-- Modelled from the spec: `get_dataset` returns the standardized channel
slice when the requested name is a known numeric channel, the standardized
variable when it is a known variable, and the explicit no-data signal
`none` for an unrecognized name.  Attribute merging and coordinate
stripping act only on metadata and are not modelled. -/
def get_dataset (ds : AtmsDataset) (name : String) : Option DimArray :=
  match get_channel_data ds name with
  | some slice => some (standardize_dims ⟨("atrack", "xtrack"), slice⟩)
  | none =>
    match lookupVar ds.dataVars name with
    | some v => some (standardize_dims v)
    | none => none

/-- The fake antenna-temperature cube of the reader tests: channel index
`c` holds the constant value `100 + c`. -/
def testCube : Nat → Nat → Nat → ℚ := fun _ _ c => 100 + c

/-- A constant 2-D variable labeled with the `(atrack, xtrack)` dims. -/
def constVar (q : ℚ) : DimArray := ⟨("atrack", "xtrack"), fun _ _ => q⟩

/-- The fake dataset of the reader tests: the cube plus the variables
`lon`, `lat` and `sat_azi`. -/
def testDataset : AtmsDataset :=
  ⟨testCube, [("lon", constVar 1), ("lat", constVar 2), ("sat_azi", constVar 3)]⟩

@[simp] theorem fpAdd_fin_fin (a b : ℚ) : fpAdd (.fin a) (.fin b) = .fin (a + b) := rfl

@[simp] theorem fpSub_fin_fin (a b : ℚ) : fpSub (.fin a) (.fin b) = .fin (a - b) := rfl

@[simp] theorem fpMul_fin_fin (a b : ℚ) : fpMul (.fin a) (.fin b) = .fin (a * b) := rfl

@[simp] theorem fpLt_fin_fin (a b : ℚ) : fpLt (.fin a) (.fin b) = decide (a < b) := rfl

theorem fpDiv_fin_fin (a b : ℚ) (h : b ≠ 0) : fpDiv (.fin a) (.fin b) = .fin (a / b) := by
  simp [fpDiv, h]

@[simp] theorem fpLt_nan_right (x : FP) : fpLt x .nan = false := by cases x <;> rfl

@[simp] theorem fpLt_nan_left (x : FP) : fpLt .nan x = false := by cases x <;> rfl

@[simp] theorem fpLt_fin_pinf (a : ℚ) : fpLt (.fin a) .pinf = true := rfl

@[simp] theorem fpLt_pinf_left (x : FP) : fpLt .pinf x = false := by cases x <;> rfl

@[simp] theorem fpLt_fin_ninf (a : ℚ) : fpLt (.fin a) .ninf = false := rfl

theorem ndvi_clamped_of_fin (p : NDVIParams) (h : p.ndvi_min ≤ p.ndvi_max) (vis nir : FP)
    (q : ℚ) (hq : ndvi_raw vis nir = .fin q) :
    ndvi_clamped p vis nir = .fin (min p.ndvi_max (max p.ndvi_min q)) := by
  by_cases h1 : p.ndvi_min < q
  · by_cases h2 : q < p.ndvi_max
    · simp [ndvi_clamped, hq, h1, h2, max_eq_right h1.le, min_eq_right h2.le]
    · simp [ndvi_clamped, hq, h1, h2, max_eq_right h1.le, min_eq_left (not_lt.mp h2)]
  · by_cases h2 : p.ndvi_min < p.ndvi_max
    · simp [ndvi_clamped, hq, h1, h2, max_eq_left (not_lt.mp h1), min_eq_right h]
    · have heq : p.ndvi_min = p.ndvi_max := le_antisymm h (not_lt.mp h2)
      simp only [ndvi_clamped, hq, fpLt_fin_fin, h1, h2, max_eq_left (not_lt.mp h1),
        min_eq_right h]
      rw [heq]
      simp

theorem ndvi_clamped_of_nan (p : NDVIParams) (h : p.ndvi_min ≤ p.ndvi_max) (vis nir : FP)
    (hq : ndvi_raw vis nir = .nan) :
    ndvi_clamped p vis nir = .fin p.ndvi_min := by
  rcases eq_or_lt_of_le h with heq | hlt
  · simp [ndvi_clamped, hq, heq, lt_irrefl]
  · simp [ndvi_clamped, hq, hlt]

theorem ndvi_clamped_of_ninf (p : NDVIParams) (h : p.ndvi_min ≤ p.ndvi_max) (vis nir : FP)
    (hq : ndvi_raw vis nir = .ninf) :
    ndvi_clamped p vis nir = .fin p.ndvi_min := by
  rcases eq_or_lt_of_le h with heq | hlt
  · simp [ndvi_clamped, hq, heq, lt_irrefl]
  · simp [ndvi_clamped, hq, hlt]

theorem ndvi_clamped_of_pinf (p : NDVIParams) (vis nir : FP)
    (hq : ndvi_raw vis nir = .pinf) :
    ndvi_clamped p vis nir = .fin p.ndvi_max := by
  simp [ndvi_clamped, hq]

theorem ndvi_clamped_mem (p : NDVIParams) (h : p.ndvi_min ≤ p.ndvi_max) (vis nir : FP) :
    ∃ c : ℚ, ndvi_clamped p vis nir = .fin c ∧ p.ndvi_min ≤ c ∧ c ≤ p.ndvi_max := by
  cases hq : ndvi_raw vis nir with
  | nan => exact ⟨p.ndvi_min, ndvi_clamped_of_nan p h vis nir hq, le_refl _, h⟩
  | pinf => exact ⟨p.ndvi_max, ndvi_clamped_of_pinf p vis nir hq, h, le_refl _⟩
  | ninf => exact ⟨p.ndvi_min, ndvi_clamped_of_ninf p h vis nir hq, le_refl _, h⟩
  | fin q =>
    exact ⟨_, ndvi_clamped_of_fin p h vis nir q hq, le_min h (le_max_left _ _),
      min_le_left _ _⟩

theorem ndvi_fraction_eq_fin (p : NDVIParams) (h : p.ndvi_min < p.ndvi_max) (vis nir : FP)
    (c : ℚ) (hc : ndvi_clamped p vis nir = .fin c) :
    ndvi_fraction p vis nir =
      .fin ((c - p.ndvi_min) / (p.ndvi_max - p.ndvi_min) * (p.limits.2 - p.limits.1)
        + p.limits.1) := by
  unfold ndvi_fraction
  rw [hc, fpSub_fin_fin, fpSub_fin_fin, fpSub_fin_fin,
    fpDiv_fin_fin _ _ (sub_ne_zero.mpr h.ne'), fpMul_fin_fin, fpAdd_fin_fin]

theorem interp_mem (t l1 l2 : ℚ) (h0 : 0 ≤ t) (h1 : t ≤ 1) :
    min l1 l2 ≤ t * (l2 - l1) + l1 ∧ t * (l2 - l1) + l1 ≤ max l1 l2 := by
  rcases le_total l1 l2 with hl | hl
  · rw [min_eq_left hl, max_eq_right hl]
    constructor <;> nlinarith
  · rw [min_eq_right hl, max_eq_left hl]
    constructor <;> nlinarith

theorem ndviHybridGreen_call_map {I : Type} (p : NDVIParams) (green vis nir : I → FP) (i : I) :
    (ndviHybridGreen_call p green vis nir).map (fun o => o i) =
      .ok (fpAdd (fpAdd (.fin 0)
            (fpMul (fpSub (.fin 1) (ndvi_fraction p (vis i) (nir i))) (green i)))
          (fpMul (ndvi_fraction p (vis i) (nir i)) (nir i))) := rfl

theorem foldl_fpAdd_map_fin (l : List ℚ) (a : ℚ) :
    (l.map FP.fin).foldl fpAdd (.fin a) = .fin (a + l.sum) := by
  induction l generalizing a with
  | nil => simp
  | cons q t ih => simp [List.foldl_cons, ih, add_assoc]

theorem spectralBlender_call_ok {I : Type} (fractions projectables : List (I → FP))
    (h : fractions.length = projectables.length) :
    spectralBlender_call fractions projectables =
      .ok fun i => ((fractions.zip projectables).map fun fv => fpMul (fv.1 i) (fv.2 i)).foldl
        fpAdd (.fin 0) := by
  simp [spectralBlender_call, h]

theorem renameDim_idem (d : String) : renameDim (renameDim d) = renameDim d := by
  by_cases h1 : d = "atrack"
  · subst h1; rfl
  · by_cases h2 : d = "xtrack"
    · subst h2; rfl
    · simp [renameDim, h1, h2]

/-- Claim C9: for parameters with `ndvi_min < ndvi_max`, the two one-sided
where-replacements always land in `[ndvi_min, ndvi_max]` — a NaN ratio is
replaced by `ndvi_min` (comparisons with NaN are false) and infinite
ratios land on the interval ends — and consequently the per-pixel blend
fraction always lies between `min limits` and `max limits`. -/
theorem ndvi_fraction_bounded {I : Type} (p : NDVIParams) (h : p.ndvi_min < p.ndvi_max)
    (vis nir : I → FP) (i : I) :
    ∃ c f : ℚ,
      ndvi_clamped p (vis i) (nir i) = .fin c ∧ p.ndvi_min ≤ c ∧ c ≤ p.ndvi_max ∧
      ndvi_fraction p (vis i) (nir i) = .fin f ∧
      min p.limits.1 p.limits.2 ≤ f ∧ f ≤ max p.limits.1 p.limits.2 := by
  obtain ⟨c, hc, hc1, hc2⟩ := ndvi_clamped_mem p h.le (vis i) (nir i)
  have hf := ndvi_fraction_eq_fin p h (vis i) (nir i) c hc
  set t := (c - p.ndvi_min) / (p.ndvi_max - p.ndvi_min) with ht
  have h0 : 0 ≤ t := div_nonneg (by linarith) (by linarith)
  have h1 : t ≤ 1 := by
    rw [ht, div_le_one (by linarith)]
    linarith
  obtain ⟨hA, hB⟩ := interp_mem t p.limits.1 p.limits.2 h0 h1
  exact ⟨c, t * (p.limits.2 - p.limits.1) + p.limits.1, hc, hc1, hc2, hf, hA, hB⟩

/-- Witness for C9: default parameters at a pixel with `vis = nir = 0`
(the NDVI ratio there is NaN). -/
theorem ndvi_fraction_bounded_witness :
    defaultNDVIParams.ndvi_min < defaultNDVIParams.ndvi_max ∧
    (∃ c f : ℚ,
      ndvi_clamped defaultNDVIParams (.fin 0) (.fin 0) = .fin c ∧
      defaultNDVIParams.ndvi_min ≤ c ∧ c ≤ defaultNDVIParams.ndvi_max ∧
      ndvi_fraction defaultNDVIParams (.fin 0) (.fin 0) = .fin f ∧
      min defaultNDVIParams.limits.1 defaultNDVIParams.limits.2 ≤ f ∧
      f ≤ max defaultNDVIParams.limits.1 defaultNDVIParams.limits.2) :=
  ⟨by norm_num [defaultNDVIParams],
   ndvi_fraction_bounded defaultNDVIParams (by norm_num [defaultNDVIParams])
     (fun _ : Unit => .fin 0) (fun _ => .fin 0) ()⟩

/-- Counterexample to claim C1 as stated: with the default parameters, a
pixel with `vis = 0`, `nir = 0` and `green = 10` yields the finite output
`8.5 = 0.85 * 10`, not NaN — the where-based clamping replaces the NaN
NDVI by `ndvi_min`. -/
theorem ndvi_nan_counterexample :
    (ndviHybridGreen_call defaultNDVIParams (fun _ : Unit => FP.fin 10)
        (fun _ => FP.fin 0) (fun _ => FP.fin 0)).map (fun o => o ()) =
      .ok (.fin (17/2)) ∧ FP.fin (17/2) ≠ FP.nan := by
  constructor
  · have hraw : ndvi_raw (FP.fin 0) (FP.fin 0) = .nan := by
      simp [ndvi_raw, fpDiv]
    have hcl := ndvi_clamped_of_nan defaultNDVIParams (by norm_num [defaultNDVIParams]) _ _ hraw
    have hfr := ndvi_fraction_eq_fin defaultNDVIParams (by norm_num [defaultNDVIParams]) _ _ _ hcl
    simp only [ndviHybridGreen_call_map, hfr, fpSub_fin_fin, fpMul_fin_fin, fpAdd_fin_fin]
    norm_num [defaultNDVIParams]
  · simp

/-- Claim C1 (amended): at every pixel where `vis = nir = 0` the NDVI
ratio is NaN, the where-clamps replace it by `ndvi_min`, and with the
default parameters the fraction is `limits[0] = 0.15` and the output is
the finite `0.85 * green`, not NaN. -/
theorem ndvi_nan_replaced {I : Type} (green vis nir : I → FP) (g : ℚ) (i : I)
    (hg : green i = .fin g) (hv : vis i = .fin 0) (hn : nir i = .fin 0) :
    ndvi_raw (vis i) (nir i) = FP.nan ∧
    ndvi_fraction defaultNDVIParams (vis i) (nir i) = .fin (3/20) ∧
    (ndviHybridGreen_call defaultNDVIParams green vis nir).map (fun o => o i) =
      .ok (.fin (17/20 * g)) := by
  have hraw : ndvi_raw (vis i) (nir i) = .nan := by
    rw [hv, hn]
    simp [ndvi_raw, fpDiv]
  have hcl := ndvi_clamped_of_nan defaultNDVIParams (by norm_num [defaultNDVIParams]) _ _ hraw
  have hfr := ndvi_fraction_eq_fin defaultNDVIParams (by norm_num [defaultNDVIParams]) _ _ _ hcl
  have hfr2 : ndvi_fraction defaultNDVIParams (vis i) (nir i) = .fin (3/20) := by
    rw [hfr]
    norm_num [defaultNDVIParams]
  refine ⟨hraw, hfr2, ?_⟩
  rw [ndviHybridGreen_call_map, hfr2, hg, hn]
  simp only [fpSub_fin_fin, fpMul_fin_fin, fpAdd_fin_fin]
  congr 2
  ring

/-- Witness for the amended C1 at `green = 10`, `vis = nir = 0`. -/
theorem ndvi_nan_replaced_witness :
    ndvi_raw (FP.fin 0) (FP.fin 0) = FP.nan ∧
    ndvi_fraction defaultNDVIParams (FP.fin 0) (FP.fin 0) = .fin (3/20) ∧
    (ndviHybridGreen_call defaultNDVIParams (fun _ : Unit => FP.fin 10)
        (fun _ => FP.fin 0) (fun _ => FP.fin 0)).map (fun o => o ()) =
      .ok (.fin (17/20 * 10)) :=
  ndvi_nan_replaced (fun _ : Unit => FP.fin 10) (fun _ => FP.fin 0) (fun _ => FP.fin 0)
    10 () rfl rfl rfl

/-- Claim C2: at every pixel with finite values, `nir + vis ≠ 0` and
`ndvi_min < ndvi_max`, the code's output equals the spec formula
`(1 - f) * green + f * nir`, with `f` the clamped NDVI mapped linearly
onto the limits. -/
theorem ndvi_output_formula {I : Type} (p : NDVIParams) (h : p.ndvi_min < p.ndvi_max)
    (green vis nir : I → FP) (g v n : ℚ) (i : I)
    (hg : green i = .fin g) (hv : vis i = .fin v) (hn : nir i = .fin n)
    (hnz : n + v ≠ 0) :
    (ndviHybridGreen_call p green vis nir).map (fun o => o i) =
      .ok (.fin ((1 - specNdviFraction p v n) * g + specNdviFraction p v n * n)) := by
  have hraw : ndvi_raw (vis i) (nir i) = .fin ((n - v) / (n + v)) := by
    rw [hv, hn]
    simp [ndvi_raw, fpDiv_fin_fin _ _ hnz]
  have hcl := ndvi_clamped_of_fin p h.le (vis i) (nir i) _ hraw
  have hfr := ndvi_fraction_eq_fin p h (vis i) (nir i) _ hcl
  have hfr2 : ndvi_fraction p (vis i) (nir i) = .fin (specNdviFraction p v n) := hfr
  rw [ndviHybridGreen_call_map, hfr2, hg, hn]
  simp only [fpSub_fin_fin, fpMul_fin_fin, fpAdd_fin_fin]
  congr 2
  ring

/-- Witness for C2: default parameters, `green = 10`, `vis = 50`,
`nir = 100`: NDVI is 1/3, the fraction is 7/60, the output is 20.5. -/
theorem ndvi_output_formula_witness :
    (ndviHybridGreen_call defaultNDVIParams (fun _ : Unit => FP.fin 10)
        (fun _ => FP.fin 50) (fun _ => FP.fin 100)).map (fun o => o ()) =
      .ok (.fin ((1 - specNdviFraction defaultNDVIParams 50 100) * 10
        + specNdviFraction defaultNDVIParams 50 100 * 100)) ∧
    specNdviFraction defaultNDVIParams 50 100 = 7/60 := by
  have hf : specNdviFraction defaultNDVIParams 50 100 = 7/60 := by
    norm_num [specNdviFraction, defaultNDVIParams, min_def, max_def]
  exact ⟨ndvi_output_formula defaultNDVIParams (by norm_num [defaultNDVIParams])
    (fun _ : Unit => FP.fin 10) (fun _ => FP.fin 50) (fun _ => FP.fin 100)
    10 50 100 () rfl rfl rfl (by norm_num), hf⟩

/-- Claim C3: with a fraction vector matching the projectables in length,
`SpectralBlender` returns the element-wise weighted sum
`Σ fractions[i] * projectables[i]`. -/
theorem spectralBlender_weighted_sum {I : Type} (fs : List ℚ) (ps : List (I → ℚ))
    (h : fs.length = ps.length) (i : I) :
    (spectralBlender_call (fs.map fun f _ => FP.fin f)
        (ps.map fun pr j => FP.fin (pr j))).map (fun o => o i) =
      .ok (.fin (((fs.zip ps).map fun fp => fp.1 * fp.2 i).sum)) := by
  rw [spectralBlender_call_ok _ _ (by simp [h])]
  simp only [Except.map]
  congr 1
  rw [List.zip_map, List.map_map]
  have hcomp : ((fun fv : (I → FP) × (I → FP) => fpMul (fv.1 i) (fv.2 i)) ∘
      Prod.map (fun f _ => FP.fin f) (fun pr j => FP.fin (pr j))) =
      fun fp : ℚ × (I → ℚ) => FP.fin (fp.1 * fp.2 i) := by
    funext fp
    cases fp
    simp [Prod.map]
  rw [hcomp]
  have hmap : ((fs.zip ps).map fun fp : ℚ × (I → ℚ) => FP.fin (fp.1 * fp.2 i)) =
      ((fs.zip ps).map fun fp : ℚ × (I → ℚ) => fp.1 * fp.2 i).map FP.fin := by
    rw [List.map_map]
    rfl
  rw [hmap, foldl_fpAdd_map_fin]
  congr 1
  ring

/-- Witness for C3: fractions `[0.63, 0.29, 0.08]` on constant arrays
`10, 20, 30` yield `14.5` at every element. -/
theorem spectralBlender_weighted_sum_witness :
    (spectralBlender_call (([63/100, 29/100, 8/100] : List ℚ).map fun f _ => FP.fin f)
        (([fun _ => 10, fun _ => 20, fun _ => 30] : List (Unit → ℚ)).map
          fun pr j => FP.fin (pr j))).map (fun o => o ()) = .ok (.fin (29/2)) := by
  rw [spectralBlender_weighted_sum ([63/100, 29/100, 8/100] : List ℚ)
    ([fun _ => 10, fun _ => 20, fun _ => 30] : List (Unit → ℚ)) (by simp) ()]
  norm_num [List.zip]

/-- Claim C4: a fraction vector whose length differs from the number of
projectables makes `SpectralBlender` fail with the `ValueError`; nothing
is truncated or padded. -/
theorem spectralBlender_length_mismatch {I : Type} (fractions projectables : List (I → FP))
    (h : fractions.length ≠ projectables.length) :
    spectralBlender_call fractions projectables =
      .error "fractions and projectables must have the same length." := by
  simp [spectralBlender_call, h]

/-- Witness for C4: zero fractions against one projectable. -/
theorem spectralBlender_length_mismatch_witness :
    spectralBlender_call ([] : List (Unit → FP)) [fun _ => FP.fin 0] =
      .error "fractions and projectables must have the same length." :=
  spectralBlender_length_mismatch [] [fun _ => FP.fin 0] (by simp)

/-- Claim C5: `HybridGreen` sets the fraction pair to `(1-F, F)` and its
output at every pixel is `(1-F) * green + F * nir`. -/
theorem hybridGreen_formula {I : Type} (F : ℚ) (g n : I → ℚ) (i : I) :
    hybridGreen_fractions F = (1 - F, F) ∧
    (hybridGreen_call F (fun j => FP.fin (g j)) (fun j => FP.fin (n j))).map (fun o => o i) =
      .ok (.fin ((1 - F) * g i + F * n i)) := by
  refine ⟨rfl, ?_⟩
  have e : (hybridGreen_call F (fun j => FP.fin (g j)) (fun j => FP.fin (n j))).map
      (fun o => o i) =
      .ok (fpAdd (fpAdd (.fin 0) (fpMul (.fin (1 - F)) (.fin (g i))))
        (fpMul (.fin F) (.fin (n i)))) := rfl
  rw [e]
  simp only [fpAdd_fin_fin, fpMul_fin_fin]
  congr 2
  ring

/-- Claim C6 (spec-modelled): a numeric channel name `k` with `1 ≤ k ≤ 22`
yields the 2-D cube slice at the 0-based index `k - 1`. -/
theorem channel_lookup_off_by_one (ds : AtmsDataset) (name : String) (k : Nat)
    (hp : parseChannelNumber name = some k) (h1 : 1 ≤ k) (h2 : k ≤ 22) :
    get_channel_data ds name = some fun a x => ds.cube a x (k - 1) := by
  simp only [get_channel_data, channelIndex, hp]
  rw [if_pos ⟨h1, h2⟩]

/-- Witness for C6: on the test cube (channel index `c` holds `100 + c`),
name "1" maps to index 0 and name "22" to index 21. -/
theorem channel_lookup_off_by_one_witness :
    get_channel_data testDataset "1" = some (fun a x => testDataset.cube a x 0) ∧
    get_channel_data testDataset "22" = some (fun a x => testDataset.cube a x 21) :=
  ⟨channel_lookup_off_by_one testDataset "1" 1 rfl (by norm_num) (by norm_num),
   channel_lookup_off_by_one testDataset "22" 22 rfl (by norm_num) (by norm_num)⟩

/-- Claim C7 (spec-modelled): a name that is neither a known numeric
channel nor a known variable makes `get_dataset` return the explicit
no-data signal `none`, not an error. -/
theorem get_dataset_unknown_none (ds : AtmsDataset) (name : String)
    (hc : channelIndex name = none) (hv : lookupVar ds.dataVars name = none) :
    get_dataset ds name = none := by
  simp only [get_dataset, get_channel_data, hc, hv]

/-- Witness for C7: the test dataset with the request "non_existing_data". -/
theorem get_dataset_unknown_none_witness :
    get_dataset testDataset "non_existing_data" = none :=
  get_dataset_unknown_none testDataset "non_existing_data" rfl rfl

/-- Claim C8 (spec-modelled): dimension standardization is canonicalizing
and idempotent: `(y, x)` is left unchanged, `(xtrack, atrack)` and
`(x, y)` are mapped to `(y, x)` with along-track on `y` and cross-track
on `x`, and standardizing twice equals standardizing once. -/
theorem standardize_dims_canonical (f : Nat → Nat → ℚ) (a : DimArray) :
    standardize_dims ⟨("y", "x"), f⟩ = ⟨("y", "x"), f⟩ ∧
    standardize_dims ⟨("xtrack", "atrack"), f⟩ = ⟨("y", "x"), fun y x => f x y⟩ ∧
    standardize_dims ⟨("x", "y"), f⟩ = ⟨("y", "x"), fun y x => f x y⟩ ∧
    standardize_dims (standardize_dims a) = standardize_dims a := by
  refine ⟨rfl, rfl, rfl, ?_⟩
  rcases a with ⟨⟨d1, d2⟩, g⟩
  by_cases hc : renameDim d1 = "x" ∧ renameDim d2 = "y"
  · rw [show standardize_dims ⟨(d1, d2), g⟩ = ⟨("y", "x"), fun y x => g x y⟩ from by
      simp only [standardize_dims]
      rw [if_pos hc]]
    rfl
  · rw [show standardize_dims ⟨(d1, d2), g⟩ = ⟨(renameDim d1, renameDim d2), g⟩ from by
      simp only [standardize_dims]
      rw [if_neg hc]]
    simp only [standardize_dims, renameDim_idem]
    rw [if_neg hc]

/-- Claim C10: every `NDVIHybridGreen.__call__` overwrites
`self.fractions` with the pair `(1 - fraction, fraction)` computed from
that call's inputs, and both the result and the updated state are
independent of whatever fractions the instance held before the call. -/
theorem ndvi_fractions_overwritten {I : Type} (p : NDVIParams) (fr0 fr1 : List (I → FP))
    (green vis nir : I → FP) :
    ((⟨p, fr0⟩ : NDVIHybridGreen I).call green vis nir).1.fractions =
      [fun i => fpSub (.fin 1) (ndvi_fraction p (vis i) (nir i)),
       fun i => ndvi_fraction p (vis i) (nir i)] ∧
    (⟨p, fr0⟩ : NDVIHybridGreen I).call green vis nir =
      (⟨p, fr1⟩ : NDVIHybridGreen I).call green vis nir :=
  ⟨rfl, rfl⟩
